import Mathlib

/-!
Verification development for the TVM codegen commons layer
(`src/compiler/libsolidity/codegen/TVMCommons.cpp`).

The C++ code is shallowly embedded: semantic types become the inductive
`Ty`, function and contract declarations become structures, the program
model is an arena (`Program`) in which contracts reference their bases by
stable identifier (`cid`), mirroring C++ pointer identity, and fallible
code (`solAssert` / `cast_error`) returns `Except String _`.
`size_t` arithmetic is `Nat` with explicit reduction modulo `2 ^ 64`.
-/

namespace TVMCommons

/-! ## Data model: semantic types -/

/-- A semantic type as inspected by the codegen commons layer:
integers carry signedness and bit width, arrays carry the byte-array
flag, structs carry their ordered member types, enums their value count;
`Other` stands for every remaining category (mappings, functions, ...). -/
inductive Ty where
  | Integer (signed : Bool) (bits : Nat)
  | Address
  | Contract
  | Array (isByteArray : Bool)
  | StringLiteral
  | Struct (members : List Ty)
  | Enum (valueCount : Nat)
  | Other

/-- Numeric classification of a type: `isNumeric`, `isSigned`, `numBits`. -/
structure TypeInfo where
  isNumeric : Bool
  isSigned : Bool
  numBits : Nat

/-- Modelled from the spec: the `TypeInfo` class lives in a header that is
not part of the visible sources; per the spec's data model, classification
yields `Numeric(signed, bits)` exactly for integer types with
`1 ≤ bits ≤ 256`, and every other category is non-numeric. -/
def typeInfo : Ty → TypeInfo
  | .Integer s b => ⟨true, s, b⟩
  | _ => ⟨false, false, 0⟩

/-- Modelled from the spec: `AddressInfo::stdAddrLength()` is the target
platform's standard address bit length constant, supplied by a header not
part of the visible sources (the TON standard address is 267 bits). -/
def stdAddrLength : Nat := 267

/-- `isAddressOrContractType`: the type is an address or a contract type. -/
def isAddressOrContractType : Ty → Bool
  | .Address => true
  | .Contract => true
  | _ => false

/-- `isStringOrStringLiteralOrBytes`: string literals, plus byte arrays
(which cover `bytes` and `string`). -/
def isStringOrStringLiteralOrBytes : Ty → Bool
  | .StringLiteral => true
  | .Array isByteArray => isByteArray
  | _ => false

/-! ## Type Encoding Resolver -/

/-- `typeToDictChar`: `"I"`/`"U"` for signed/unsigned numeric key types,
`"U"` for string/string-literal/bytes key types, `""` otherwise (the
dictionary key is then a slice). -/
def typeToDictChar (keyType : Ty) : String :=
  let ti := typeInfo keyType
  if ti.isNumeric then
    if ti.isSigned then "I" else "U"
  else if isStringOrStringLiteralOrBytes keyType then "U"
  else ""

/-- The member-summation loop of `lengthOfDictKey` over a struct's member
types: each member must be numeric (`solAssert(ti.isNumeric, "")`), and
the numeric bit widths are accumulated. -/
def structMembersBitLength : List Ty → Except String Nat
  | [] => .ok 0
  | t :: rest =>
    let ti := typeInfo t
    if ti.isNumeric then
      match structMembersBitLength rest with
      | .ok n => .ok (ti.numBits + n)
      | .error e => .error e
    else .error "solAssert: struct member is not numeric"

/-- `lengthOfDictKey`: bit length of a dictionary key of the given type.
Address/contract keys use the standard address length, numeric keys their
own width, string-like keys 256 bits (content hash), struct keys the sum
of their members' numeric widths; anything else hits `solAssert(false)`. -/
def lengthOfDictKey (key : Ty) : Except String Nat :=
  if isAddressOrContractType key then .ok stdAddrLength
  else
    let ti := typeInfo key
    if ti.isNumeric then .ok ti.numBits
    else if isStringOrStringLiteralOrBytes key then .ok 256
    else
      match key with
      | .Struct members => structMembersBitLength members
      | _ => .error "solAssert: unsupported dict key type"

/-- `storeIntegralOrAddress`: store-instruction mnemonic for a value of
the given type, with the operand-reversed variant when `reverse` is set.
Address/contract values are stored as slices; numeric values via
`STI`/`STU` (with `R` appended for the reversed variant) followed by the
bit width; the mnemonic is asserted to differ from `"STU 267"` before the
width is appended; any other type hits `solAssert(false)`. -/
def storeIntegralOrAddress (type : Ty) (reverse : Bool) : Except String String :=
  if isAddressOrContractType type then
    .ok (if reverse then "STSLICER" else "STSLICE")
  else
    let ti := typeInfo type
    if ti.isNumeric then
      let cmd : String := if ti.isSigned then "STI" else "STU"
      let cmd : String := if reverse then cmd ++ "R" else cmd
      if cmd = "STU 267" then .error "solAssert: STU 267"
      else .ok (cmd ++ " " ++ toString ti.numBits)
    else .error "solAssert: unsupported param type"

/-- Bit width of `size_t` on the modelled (64-bit) platform. -/
def sizeTBits : Nat := 64

/-- The `while (true)` loop of `bitsForEnum`, counting how many times the
remaining value is shifted right by 8 bits until it becomes zero (the
`bytes` counter; the loop body always runs at least once). -/
def bitsForEnumLoop (v : Nat) : Nat :=
  if v >>> 8 = 0 then 1
  else 1 + bitsForEnumLoop (v >>> 8)
termination_by v
decreasing_by
  have hv : v ≠ 0 := by
    intro h0
    simp [h0] at *
  calc v >>> 8 = v / 2 ^ 8 := Nat.shiftRight_eq_div_pow v 8
    _ < v := Nat.div_lt_self (Nat.pos_of_ne_zero hv) (by norm_num)

/-- `bitsForEnum`: byte-aligned bit width for an enum with `val_count`
values. The C++ decrements the `size_t` argument (wrapping at `2 ^ 64`)
and returns 8 times the number of loop iterations. -/
def bitsForEnum (val_count : Nat) : Nat :=
  8 * bitsForEnumLoop ((val_count + (2 ^ sizeTBits - 1)) % 2 ^ sizeTBits)

/-! ## Function and contract declarations -/

/-- The role of a function declaration (the C++ exposes it through the
mutually exclusive predicates `isConstructor`, `isReceive`, `isFallback`,
`isOnBounce`). -/
inductive Role where
  | Regular
  | Constructor
  | Receive
  | Fallback
  | OnBounce
deriving DecidableEq, Repr

/-- A function declaration: literal declared name, role, inline flag, and
the name of its enclosing contract (the C++ reaches it through the
declaration's back-reference to its contract). -/
structure FunctionDefinition where
  name : String
  role : Role
  isInline : Bool
  contractName : String
deriving DecidableEq, Repr

def FunctionDefinition.isConstructor (f : FunctionDefinition) : Bool :=
  f.role = .Constructor

def FunctionDefinition.isReceive (f : FunctionDefinition) : Bool :=
  f.role = .Receive

def FunctionDefinition.isFallback (f : FunctionDefinition) : Bool :=
  f.role = .Fallback

def FunctionDefinition.isOnBounce (f : FunctionDefinition) : Bool :=
  f.role = .OnBounce

/-- A contract declaration in the arena program model: the `cid` is its
stable identity (standing in for the C++ object address), the linearized
base-contract list (most-derived first, the contract itself included, as
produced by the front end) references bases by identifier. -/
structure ContractDefinition where
  cid : Nat
  name : String
  linearizedBaseContracts : List Nat
  definedFunctions : List FunctionDefinition
deriving DecidableEq, Repr

/-- The whole-program arena the contract identifiers point into. -/
abbrev Program := List ContractDefinition

/-- Resolve a contract identifier in the arena (a C++ pointer always
resolves; dangling identifiers simply resolve to nothing). -/
def findContract (p : Program) (i : Nat) : Option ContractDefinition :=
  p.find? (fun c => c.cid = i)

/-- `functionName`: the effective name of a function declaration —
the enclosing contract's name for a constructor, `"receive"`,
`"fallback"`, `"onBounce"` for the special roles, otherwise the literal
declared name. -/
def functionName (f : FunctionDefinition) : String :=
  if f.isConstructor then f.contractName
  else if f.isReceive then "receive"
  else if f.isFallback then "fallback"
  else if f.isOnBounce then "onBounce"
  else f.name

/-- `ends_with`: does `str` end with `suffix`? Translates the C++
`str.compare(str.size()-suffix.size(), suffix.size(), suffix) == 0`. -/
def ends_with (str suffix : String) : Bool :=
  if suffix.length > str.length then false
  else str.drop (str.length - suffix.length) = suffix

/-- `isTvmIntrinsic`: the name starts with the reserved `"tvm_"`
intrinsic marker (`0 == name.find("tvm_")`, i.e. the first occurrence of
`"tvm_"` is at position 0, i.e. the first four characters are `tvm_`). -/
def isTvmIntrinsic (name : String) : Bool :=
  name.data.take 4 = "tvm_".data

/-- `isFunctionForInlining`: functions whose body is inlined at call
sites. -/
def isFunctionForInlining (f : FunctionDefinition) : Bool :=
  ends_with f.name "_inline" || f.isInline || f.isFallback || f.isReceive || f.isOnBounce

/-! ## Contract Hierarchy Resolver -/

/-- `getContractsChain`: the linearized base contracts of a contract in
base-first order (the front end's most-derived-first list, reversed). -/
def getContractsChain (p : Program) (contract : ContractDefinition) : List ContractDefinition :=
  (contract.linearizedBaseContracts.filterMap (findContract p)).reverse

/-- `getFunction`: the first declaration in the contract's own declared
functions whose literal name is `fname`. -/
def getFunction (contract : ContractDefinition) (fname : String) : Option FunctionDefinition :=
  contract.definedFunctions.find? (fun f => f.name = fname)

/-- The loop of `getSuperContract`: walk the chain, breaking at the
current contract (pointer comparison, i.e. `cid` comparison), remembering
the last earlier contract declaring `fname` in `prev`. -/
def getSuperContractLoop (currentContract : ContractDefinition) (fname : String) :
    List ContractDefinition → Option ContractDefinition → Option ContractDefinition
  | [], prev => prev
  | c :: rest, prev =>
    if c.cid = currentContract.cid then prev
    else
      getSuperContractLoop currentContract fname rest
        (if (getFunction c fname).isSome then some c else prev)

/-- `getSuperContract`: the contract providing the "super" definition of
`fname` relative to `currentContract` within `mainContract`'s chain. -/
def getSuperContract (p : Program) (currentContract mainContract : ContractDefinition)
    (fname : String) : Option ContractDefinition :=
  getSuperContractLoop currentContract fname (getContractsChain p mainContract) none

/-- `getContractFunctionPairs`: every function declared anywhere in the
chain, paired with its owning contract, base-first then declaration
order. -/
def getContractFunctionPairs (p : Program) (contract : ContractDefinition) :
    List (FunctionDefinition × ContractDefinition) :=
  (getContractsChain p contract).flatMap
    (fun c => c.definedFunctions.map (fun f => (f, c)))

/-- The two-argument `getContractFunctions` overload: every
non-constructor declaration in the chain whose effective name is
`funcName`, in chain order. -/
def getContractFunctionsNamed (p : Program) (contract : ContractDefinition)
    (funcName : String) : List FunctionDefinition :=
  (getContractFunctionPairs p contract).filterMap fun fc =>
    if fc.1.isConstructor then none
    else if functionName fc.1 = funcName then some fc.1
    else none

/-- The one-argument `getContractFunctions` overload: all visible
functions of a contract — constructors and intrinsic-named declarations
are skipped, and only the last declaration (`.back()`) with each
effective name survives. -/
def getContractFunctions (p : Program) (contract : ContractDefinition) :
    List FunctionDefinition :=
  (getContractFunctionPairs p contract).filterMap fun fc =>
    if fc.1.isConstructor then none
    else if isTvmIntrinsic (functionName fc.1) then none
    else if (getContractFunctionsNamed p contract (functionName fc.1)).getLast? = some fc.1
    then some fc.1
    else none

/-! ## Theorems: type encoding -/

/-- C1: for every numeric (integral) type with bit width `b` and
signedness `s` and every reverse flag `r`, `storeIntegralOrAddress`
succeeds (never fails fatally) and returns the `STI`/`STU` mnemonic
chosen by signedness, with the `R` suffix on the mnemonic exactly when
the reverse flag is set, followed by the bit width. -/
theorem storeIntegralOrAddress_numeric (s : Bool) (b : Nat) (r : Bool) :
    storeIntegralOrAddress (.Integer s b) r =
      .ok ((if s then "STI" else "STU") ++ (if r then "R" else "") ++ " " ++ toString b) := by
  cases s <;> cases r <;> rfl

/-- C5 counterexample: calling `storeIntegralOrAddress` on the signed
267-bit integer type does not fire the defensive assertion — it returns
the ordinary `"STI 267"` mnemonic instead of failing. -/
theorem storeIntegralOrAddress_signed267_no_assert :
    storeIntegralOrAddress (.Integer true 267) false = .ok "STI 267" := by
  rfl

/-- C5 amended: the signed 267-bit combination is not rejected: the
assertion compares the bare mnemonic (before the bit width is appended,
and against the unsigned `"STU 267"` string), so it can never fire, and
a signed 267-bit store yields `"STI 267"` (`"STIR 267"` reversed). -/
theorem storeIntegralOrAddress_signed267_ok (r : Bool) :
    storeIntegralOrAddress (.Integer true 267) r =
      .ok ((if r then "STIR" else "STI") ++ " 267") := by
  cases r <;> rfl

/-- C7: `typeToDictChar` yields `"I"` for signed and `"U"` for unsigned
numeric types, `"U"` for byte-array/string/string-literal types, and
`""` (slice-keyed dictionary) for every other category. -/
theorem typeToDictChar_spec (ty : Ty) :
    typeToDictChar ty =
      match ty with
      | .Integer true _ => "I"
      | .Integer false _ => "U"
      | .StringLiteral => "U"
      | .Array isByteArray => if isByteArray then "U" else ""
      | _ => "" := by
  cases ty with
  | Integer s b => cases s <;> rfl
  | Array isByteArray => cases isByteArray <;> rfl
  | _ => rfl

/-- The struct-member summation of `lengthOfDictKey` succeeds with the
sum of the members' numeric bit widths exactly when every member is
numeric, and asserts otherwise. -/
theorem structMembersBitLength_eq (ms : List Ty) :
    structMembersBitLength ms =
      if ms.all (fun t => (typeInfo t).isNumeric) then
        .ok ((ms.map (fun t => (typeInfo t).numBits)).sum)
      else .error "solAssert: struct member is not numeric" := by
  induction ms with
  | nil => rfl
  | cons t rest ih =>
    simp only [structMembersBitLength, List.all_cons, List.map_cons, List.sum_cons, ih]
    by_cases h : (typeInfo t).isNumeric = true
    · by_cases h2 : rest.all (fun t => (typeInfo t).isNumeric) = true <;>
        simp [h, h2]
    · simp [h]

/-- C4: `lengthOfDictKey` returns the standard address length for
address/contract keys, the type's own bit width for numeric keys, 256
for byte-array/string/string-literal keys, the sum of the members'
numeric bit widths for all-numeric struct keys; it fails fatally for a
struct with a non-numeric member and for every other category. -/
theorem lengthOfDictKey_spec (ty : Ty) :
    lengthOfDictKey ty =
      match ty with
      | .Address => .ok stdAddrLength
      | .Contract => .ok stdAddrLength
      | .Integer _ b => .ok b
      | .StringLiteral => .ok 256
      | .Array isByteArray =>
          if isByteArray then .ok 256 else .error "solAssert: unsupported dict key type"
      | .Struct ms =>
          if ms.all (fun t => (typeInfo t).isNumeric) then
            .ok ((ms.map (fun t => (typeInfo t).numBits)).sum)
          else .error "solAssert: struct member is not numeric"
      | _ => .error "solAssert: unsupported dict key type" := by
  cases ty with
  | Integer s b => rfl
  | Array isByteArray => cases isByteArray <;> rfl
  | Struct ms =>
    simpa [lengthOfDictKey, isAddressOrContractType, typeInfo,
      isStringOrStringLiteralOrBytes] using structMembersBitLength_eq ms
  | _ => rfl

/-- C8: the effective function name is the enclosing contract's name for
a constructor, `"receive"`/`"fallback"`/`"onBounce"` for the special
roles, and the literal declared name for a regular function; the role
tests are mutually exclusive, so testing them in the source's order
realizes exactly this role-indexed mapping. -/
theorem functionName_spec (f : FunctionDefinition) :
    functionName f =
      match f.role with
      | .Constructor => f.contractName
      | .Receive => "receive"
      | .Fallback => "fallback"
      | .OnBounce => "onBounce"
      | .Regular => f.name := by
  obtain ⟨name, role, isInline, contractName⟩ := f
  cases role <;> rfl

/-! ## Theorems: enum bit widths -/

/-- Values below 256 make the loop stop after one iteration. -/
theorem bitsForEnumLoop_small (v : Nat) (h : v < 256) : bitsForEnumLoop v = 1 := by
  have h8 : v >>> 8 = 0 := by
    rw [Nat.shiftRight_eq_div_pow]
    omega
  unfold bitsForEnumLoop
  rw [if_pos h8]

/-- Values of 256 or more make the loop recurse on the value divided by
256. -/
theorem bitsForEnumLoop_step (v : Nat) (h : 256 ≤ v) :
    bitsForEnumLoop v = 1 + bitsForEnumLoop (v / 256) := by
  have h8 : v >>> 8 = v / 256 := by
    rw [Nat.shiftRight_eq_div_pow]
  have hne : ¬v >>> 8 = 0 := by
    rw [h8]
    omega
  conv_lhs => rw [bitsForEnumLoop]
  rw [if_neg hne, h8]

/-- The loop always counts at least one iteration. -/
theorem bitsForEnumLoop_pos (v : Nat) : 1 ≤ bitsForEnumLoop v := by
  by_cases h : v < 256
  · rw [bitsForEnumLoop_small v h]
  · rw [bitsForEnumLoop_step v (by omega)]
    omega

/-- Counting iterations yields enough bytes to cover the value. -/
theorem bitsForEnumLoop_bound (v : Nat) : v < 2 ^ (8 * bitsForEnumLoop v) := by
  induction v using Nat.strong_induction_on with
  | _ v ih =>
    by_cases h : v < 256
    · rw [bitsForEnumLoop_small v h]
      omega
    · push_neg at h
      rw [bitsForEnumLoop_step v h]
      have hlt : v / 256 < v := Nat.div_lt_self (by omega) (by norm_num)
      have ihv := ih (v / 256) hlt
      have hpow : 2 ^ (8 * (1 + bitsForEnumLoop (v / 256))) =
          256 * 2 ^ (8 * bitsForEnumLoop (v / 256)) := by
        rw [Nat.mul_add, pow_add]
        norm_num
      rw [hpow]
      omega

/-- The iteration count is monotone in the value. -/
theorem bitsForEnumLoop_mono (v w : Nat) (hvw : v ≤ w) :
    bitsForEnumLoop v ≤ bitsForEnumLoop w := by
  induction w using Nat.strong_induction_on generalizing v with
  | _ w ih =>
    by_cases hw : w < 256
    · rw [bitsForEnumLoop_small v (by omega), bitsForEnumLoop_small w hw]
    · push_neg at hw
      rw [bitsForEnumLoop_step w hw]
      by_cases hv : v < 256
      · rw [bitsForEnumLoop_small v hv]
        have := bitsForEnumLoop_pos (w / 256)
        omega
      · push_neg at hv
        rw [bitsForEnumLoop_step v hv]
        have hlt : w / 256 < w := Nat.div_lt_self (by omega) (by norm_num)
        have := ih (w / 256) hlt (v / 256) (Nat.div_le_div_right hvw)
        omega

/-- Within the `size_t` range the decrement does not wrap. -/
theorem bitsForEnum_eq (n : Nat) (h1 : 1 ≤ n) (h2 : n ≤ 2 ^ 64) :
    bitsForEnum n = 8 * bitsForEnumLoop (n - 1) := by
  have hpow : (2 : Nat) ^ sizeTBits = 18446744073709551616 := by norm_num [sizeTBits]
  have h2' : n ≤ 18446744073709551616 := by
    calc n ≤ 2 ^ 64 := h2
      _ = 18446744073709551616 := by norm_num
  have harg : (n + (2 ^ sizeTBits - 1)) % 2 ^ sizeTBits = n - 1 := by
    rw [hpow]
    omega
  rw [bitsForEnum, harg]

/-- C3: for `1 ≤ n ≤ m < 2 ^ 64`, `bitsForEnum n` is a multiple of 8,
monotone non-decreasing from `n` to `m`, and wide enough that
`2 ^ bitsForEnum n > n - 1`; concretely `bitsForEnum` maps 1, 255 and
256 to 8 and 257 to 16. -/
theorem bitsForEnum_spec (n m : Nat) (h1 : 1 ≤ n) (hnm : n ≤ m) (hm : m < 2 ^ 64) :
    8 ∣ bitsForEnum n ∧ bitsForEnum n ≤ bitsForEnum m ∧ n - 1 < 2 ^ bitsForEnum n ∧
    bitsForEnum 1 = 8 ∧ bitsForEnum 255 = 8 ∧ bitsForEnum 256 = 8 ∧ bitsForEnum 257 = 16 := by
  have hn2 : n ≤ 2 ^ 64 := by omega
  have hm2 : m ≤ 2 ^ 64 := by omega
  have en := bitsForEnum_eq n h1 hn2
  have em := bitsForEnum_eq m (by omega) hm2
  refine ⟨?_, ?_, ?_, ?_, ?_, ?_, ?_⟩
  · exact en ▸ Dvd.intro _ rfl
  · rw [en, em]
    exact Nat.mul_le_mul_left 8 (bitsForEnumLoop_mono (n - 1) (m - 1) (by omega))
  · rw [en]
    exact bitsForEnumLoop_bound (n - 1)
  · rw [bitsForEnum_eq 1 (by norm_num) (by norm_num),
      bitsForEnumLoop_small 0 (by norm_num)]
  · rw [bitsForEnum_eq 255 (by norm_num) (by norm_num),
      bitsForEnumLoop_small 254 (by norm_num)]
  · rw [bitsForEnum_eq 256 (by norm_num) (by norm_num),
      bitsForEnumLoop_small 255 (by norm_num)]
  · rw [bitsForEnum_eq 257 (by norm_num) (by norm_num),
      bitsForEnumLoop_step 256 (by norm_num)]
    norm_num [bitsForEnumLoop_small 1 (by norm_num)]

/-- Witness for C3 at `n = 255`, `m = 257`. -/
theorem bitsForEnum_spec_witness :
    ((1 : Nat) ≤ 255 ∧ (255 : Nat) ≤ 257 ∧ (257 : Nat) < 2 ^ 64) ∧
    (8 ∣ bitsForEnum 255 ∧ bitsForEnum 255 ≤ bitsForEnum 257 ∧
     (255 : Nat) - 1 < 2 ^ bitsForEnum 255 ∧
     bitsForEnum 1 = 8 ∧ bitsForEnum 255 = 8 ∧ bitsForEnum 256 = 8 ∧ bitsForEnum 257 = 16) :=
  ⟨⟨by norm_num, by norm_num, by norm_num⟩,
    bitsForEnum_spec 255 257 (by norm_num) (by norm_num) (by norm_num)⟩

/-- C9: called with `val_count = 0`, the unsigned decrement wraps to the
maximum `size_t` value, so `bitsForEnum` reports no error and returns
`8 * sizeof(size_t)` bits, i.e. 64 on the modelled 64-bit platform. -/
theorem bitsForEnum_zero_wraps : bitsForEnum 0 = 64 := by
  have e0 : bitsForEnumLoop 255 = 1 := bitsForEnumLoop_small 255 (by norm_num)
  have e1 : bitsForEnumLoop 65535 = 2 := by
    rw [bitsForEnumLoop_step 65535 (by norm_num)]
    norm_num [e0]
  have e2 : bitsForEnumLoop 16777215 = 3 := by
    rw [bitsForEnumLoop_step 16777215 (by norm_num)]
    norm_num [e1]
  have e3 : bitsForEnumLoop 4294967295 = 4 := by
    rw [bitsForEnumLoop_step 4294967295 (by norm_num)]
    norm_num [e2]
  have e4 : bitsForEnumLoop 1099511627775 = 5 := by
    rw [bitsForEnumLoop_step 1099511627775 (by norm_num)]
    norm_num [e3]
  have e5 : bitsForEnumLoop 281474976710655 = 6 := by
    rw [bitsForEnumLoop_step 281474976710655 (by norm_num)]
    norm_num [e4]
  have e6 : bitsForEnumLoop 72057594037927935 = 7 := by
    rw [bitsForEnumLoop_step 72057594037927935 (by norm_num)]
    norm_num [e5]
  have e7 : bitsForEnumLoop 18446744073709551615 = 8 := by
    rw [bitsForEnumLoop_step 18446744073709551615 (by norm_num)]
    norm_num [e6]
  have hpow : (2 : Nat) ^ sizeTBits = 18446744073709551616 := by norm_num [sizeTBits]
  have harg : (0 + (2 ^ sizeTBits - 1)) % 2 ^ sizeTBits = 18446744073709551615 := by
    rw [hpow]
  rw [bitsForEnum, harg, e7]

/-! ## Theorems: contract hierarchy -/

/-- Unrolling the `getSuperContract` loop over a chain split at the
first occurrence of the current contract: the result is the last
declaring contract among the strictly earlier ones, falling back to the
incoming accumulator. -/
theorem getSuperContractLoop_eq (current : ContractDefinition) (fname : String)
    (post : List ContractDefinition) (pre : List ContractDefinition)
    (prev : Option ContractDefinition)
    (hpre : current.cid ∉ pre.map ContractDefinition.cid) :
    getSuperContractLoop current fname (pre ++ current :: post) prev =
      (pre.reverse.find? (fun c => (getFunction c fname).isSome)).or prev := by
  induction pre generalizing prev with
  | nil =>
    simp [getSuperContractLoop]
  | cons c rest ih =>
    simp only [List.map_cons, List.mem_cons] at hpre
    push_neg at hpre
    obtain ⟨hne, hrest⟩ := hpre
    rw [List.cons_append]
    rw [show getSuperContractLoop current fname
        (c :: (rest ++ current :: post)) prev =
        getSuperContractLoop current fname (rest ++ current :: post)
          (if (getFunction c fname).isSome then some c else prev) from
      by rw [getSuperContractLoop, if_neg (fun h => hne h.symm)]]
    rw [ih _ hrest]
    rw [List.reverse_cons, List.find?_append]
    by_cases hc : (getFunction c fname).isSome = true
    · simp [hc, Option.or_assoc]
    · simp [hc]

/-- C2: when the base-first chain of `mainContract` splits as
`pre ++ currentContract :: post` at the first occurrence of
`currentContract`, `getSuperContract` returns exactly the last contract
in `pre` (the ancestors strictly before `currentContract`) declaring a
function named `fname` — in particular `none` when no such ancestor
declares it, regardless of declarations in `currentContract` itself or
in `post`. -/
theorem getSuperContract_spec (p : Program) (current main : ContractDefinition)
    (fname : String) (pre post : List ContractDefinition)
    (hchain : getContractsChain p main = pre ++ current :: post)
    (hpre : current.cid ∉ pre.map ContractDefinition.cid) :
    getSuperContract p current main fname =
      pre.reverse.find? (fun c => (getFunction c fname).isSome) := by
  rw [getSuperContract, hchain,
    getSuperContractLoop_eq current fname post pre none hpre, Option.or_none]

/-- A base contract of the demonstration chain declaring `foo`. -/
def fooBase : FunctionDefinition := ⟨"foo", .Regular, false, "Base"⟩

/-- The derived contract's own overriding declaration of `foo`. -/
def fooDerived : FunctionDefinition := ⟨"foo", .Regular, false, "Derived"⟩

/-- The root contract of the demonstration chain. -/
def baseC : ContractDefinition := ⟨0, "Base", [0], [fooBase]⟩

/-- The middle contract of the demonstration chain (declares nothing). -/
def midC : ContractDefinition := ⟨1, "Mid", [1, 0], []⟩

/-- The most-derived contract of the demonstration chain. -/
def derivedC : ContractDefinition := ⟨2, "Derived", [2, 1, 0], [fooDerived]⟩

/-- The arena of the demonstration chain `Base → Mid → Derived`. -/
def demoProgram : Program := [baseC, midC, derivedC]

/-- Witness for C2: in the chain `Base → Mid → Derived` where `Base` and
`Derived` declare `foo` and `Mid` does not, the super resolution of
`foo` relative to `Derived` is `Base`. -/
theorem getSuperContract_spec_witness :
    getSuperContract demoProgram derivedC derivedC "foo" = some baseC := by
  have hchain : getContractsChain demoProgram derivedC =
      [baseC, midC] ++ derivedC :: [] := by rfl
  have hpre : derivedC.cid ∉ List.map ContractDefinition.cid [baseC, midC] := by decide
  rw [getSuperContract_spec demoProgram derivedC derivedC "foo" [baseC, midC] [] hchain hpre]
  rfl

/-- Membership in the one-argument `getContractFunctions` result forces
the three defining facts of the filter: non-constructor, non-intrinsic
effective name, and being the `.back()` (most derived) declaration with
that effective name. -/
theorem mem_getContractFunctions (p : Program) (contract : ContractDefinition)
    (f : FunctionDefinition) (hf : f ∈ getContractFunctions p contract) :
    f.isConstructor = false ∧ isTvmIntrinsic (functionName f) = false ∧
    (getContractFunctionsNamed p contract (functionName f)).getLast? = some f := by
  rw [getContractFunctions] at hf
  obtain ⟨fc, -, heq⟩ := List.mem_filterMap.mp hf
  by_cases h1 : fc.1.isConstructor = true
  · rw [if_pos h1] at heq
    exact Option.noConfusion heq
  · rw [if_neg h1] at heq
    by_cases h2 : isTvmIntrinsic (functionName fc.1) = true
    · rw [if_pos h2] at heq
      exact Option.noConfusion heq
    · rw [if_neg h2] at heq
      by_cases h3 :
          (getContractFunctionsNamed p contract (functionName fc.1)).getLast? = some fc.1
      · rw [if_pos h3] at heq
        have hfc : fc.1 = f := Option.some_inj.mp heq
        rw [hfc] at h1 h2 h3
        exact ⟨Bool.eq_false_iff.mpr h1, Bool.eq_false_iff.mpr h2, h3⟩
      · rw [if_neg h3] at heq
        exact Option.noConfusion heq

/-- An element designated by `getLast?` is a member of the list. -/
theorem getLast?_mem_of_eq_some {α : Type} {l : List α} {w : α}
    (h : l.getLast? = some w) : w ∈ l := by
  obtain ⟨hne, heq⟩ := List.mem_getLast?_eq_getLast (Option.mem_def.mpr h)
  rw [heq]
  exact List.getLast_mem hne

/-- Membership in the name-filtered declaration list forces the filter's
facts: non-constructor, matching effective name, and origin in the
chain's function/contract pairs. -/
theorem mem_getContractFunctionsNamed (p : Program) (contract : ContractDefinition)
    (name : String) (w : FunctionDefinition)
    (hw : w ∈ getContractFunctionsNamed p contract name) :
    w.isConstructor = false ∧ functionName w = name ∧
    ∃ fc ∈ getContractFunctionPairs p contract, fc.1 = w := by
  rw [getContractFunctionsNamed] at hw
  obtain ⟨fc, hmem, heq⟩ := List.mem_filterMap.mp hw
  by_cases h1 : fc.1.isConstructor = true
  · rw [if_pos h1] at heq
    exact Option.noConfusion heq
  · rw [if_neg h1] at heq
    by_cases h2 : functionName fc.1 = name
    · rw [if_pos h2] at heq
      have hfc : fc.1 = w := Option.some_inj.mp heq
      rw [hfc] at h1 h2
      exact ⟨Bool.eq_false_iff.mpr h1, h2, fc, hmem, hfc⟩
    · rw [if_neg h2] at heq
      exact Option.noConfusion heq

/-- The winner (most-derived declaration) of every non-intrinsic
effective name reachable in the chain is contained in the
visible-function set. -/
theorem getContractFunctions_mem_of_winner (p : Program) (contract : ContractDefinition)
    (name : String) (w : FunctionDefinition)
    (hw : (getContractFunctionsNamed p contract name).getLast? = some w)
    (hintr : isTvmIntrinsic name = false) :
    w ∈ getContractFunctions p contract := by
  have hwmem : w ∈ getContractFunctionsNamed p contract name :=
    getLast?_mem_of_eq_some hw
  obtain ⟨hctor, hname, fc, hfcmem, hfc1⟩ :=
    mem_getContractFunctionsNamed p contract name w hwmem
  rw [getContractFunctions]
  apply List.mem_filterMap.mpr
  refine ⟨fc, hfcmem, ?_⟩
  rw [hfc1, hname]
  rw [if_neg (by rw [hctor]; exact Bool.false_ne_true)]
  rw [if_neg (by rw [hintr]; exact Bool.false_ne_true)]
  rw [if_pos hw]

/-- C6: the visible-function set of a contract (a) contains only
non-constructors whose effective names lack the `tvm_` intrinsic marker,
each being the most-derived (last in base-first order) declaration with
its effective name, (b) contains the most-derived declaration of every
non-intrinsic effective name reachable in the chain, and (c) holds at
most one declaration per effective name — together: for each distinct
effective name, exactly the most-derived declaration. -/
theorem getContractFunctions_spec (p : Program) (contract : ContractDefinition) :
    (∀ f ∈ getContractFunctions p contract,
      f.isConstructor = false ∧ isTvmIntrinsic (functionName f) = false ∧
      (getContractFunctionsNamed p contract (functionName f)).getLast? = some f) ∧
    (∀ name w, (getContractFunctionsNamed p contract name).getLast? = some w →
      isTvmIntrinsic name = false → w ∈ getContractFunctions p contract) ∧
    (getContractFunctions p contract).Pairwise
      (fun a b => functionName a = functionName b → a = b) := by
  refine ⟨fun f hf => mem_getContractFunctions p contract f hf,
    fun name w hw hintr => getContractFunctions_mem_of_winner p contract name w hw hintr, ?_⟩
  apply List.pairwise_of_forall_mem_list
  intro a ha b hb hab
  have la := (mem_getContractFunctions p contract a ha).2.2
  have lb := (mem_getContractFunctions p contract b hb).2.2
  rw [hab] at la
  rw [la] at lb
  exact Option.some_inj.mp lb

/-- The constructor of the visibility-demonstration base contract. -/
def ctorBase6 : FunctionDefinition := ⟨"", .Constructor, false, "Base6"⟩

/-- An intrinsic-named declaration in the visibility demonstration. -/
def tvmBase6 : FunctionDefinition := ⟨"tvm_thing", .Regular, false, "Base6"⟩

/-- The base declaration of `foo` in the visibility demonstration. -/
def fooBase6 : FunctionDefinition := ⟨"foo", .Regular, false, "Base6"⟩

/-- The overriding declaration of `foo` in the visibility demonstration. -/
def fooDerived6 : FunctionDefinition := ⟨"foo", .Regular, false, "Derived6"⟩

/-- The base contract of the visibility demonstration. -/
def base6 : ContractDefinition := ⟨10, "Base6", [10], [ctorBase6, tvmBase6, fooBase6]⟩

/-- The derived contract of the visibility demonstration. -/
def derived6 : ContractDefinition := ⟨11, "Derived6", [11, 10], [fooDerived6]⟩

/-- The arena of the visibility demonstration. -/
def prog6 : Program := [base6, derived6]

/-- Witness for C6: with a constructor, an intrinsic and an overridden
`foo` in the chain, the containment direction of the theorem puts the
derived (most-derived) `foo` into the visible-function set. -/
theorem getContractFunctions_spec_witness :
    ((getContractFunctionsNamed prog6 derived6 "foo").getLast? = some fooDerived6 ∧
     isTvmIntrinsic "foo" = false) ∧
    fooDerived6 ∈ getContractFunctions prog6 derived6 :=
  ⟨⟨by decide, by decide⟩,
    (getContractFunctions_spec prog6 derived6).2.1 "foo" fooDerived6 (by decide) (by decide)⟩

/-! ## Theorems: inlining predicate -/

/-- The source's `ends_with` decides exactly the string-suffix relation:
`str` ends with `suffix` iff `str` splits as some prefix followed by
`suffix`. -/
theorem ends_with_iff (str suffix : String) :
    ends_with str suffix = true ↔ ∃ p, str = p ++ suffix := by
  constructor
  · intro h
    rw [ends_with] at h
    split at h
    · exact absurd h (by simp)
    · rename_i hgt
      push_neg at hgt
      have hd : str.drop (str.length - suffix.length) = suffix := by simpa using h
      refine ⟨str.take (str.length - suffix.length), ?_⟩
      apply String.ext
      have hdata : suffix.data = str.data.drop (str.length - suffix.length) := by
        rw [← String.data_drop, hd]
      rw [String.data_append, String.data_take, hdata]
      exact (List.take_append_drop _ str.data).symm
  · rintro ⟨p, rfl⟩
    rw [ends_with]
    have hlen : (p ++ suffix).length = p.length + suffix.length := String.length_append p suffix
    rw [if_neg (by omega)]
    have hsub : (p ++ suffix).length - suffix.length = p.length := by omega
    have hdrop : (p ++ suffix).drop p.length = suffix := by
      apply String.ext
      rw [String.data_drop, String.data_append]
      exact List.drop_left p.data suffix.data
    simp [hsub, hdrop]

/-- C10: `isFunctionForInlining` holds exactly for functions whose role
is `Fallback`, `Receive` or `OnBounce`, functions with the `isInline`
flag, and functions whose literal declared name ends in `"_inline"`, and
for no others. -/
theorem isFunctionForInlining_spec (f : FunctionDefinition) :
    isFunctionForInlining f = true ↔
      f.role = .Fallback ∨ f.role = .Receive ∨ f.role = .OnBounce ∨
      f.isInline = true ∨ ∃ p, f.name = p ++ "_inline" := by
  rw [isFunctionForInlining]
  simp only [Bool.or_eq_true, ends_with_iff, FunctionDefinition.isFallback,
    FunctionDefinition.isReceive, FunctionDefinition.isOnBounce, decide_eq_true_eq]
  tauto

end TVMCommons
